import Mathlib

/-
Verification of the request-scoped context propagation engine
(ContextRegistry / ContextRegistration / Context) of the potami routing
library, together with the pipeline coordinator's scope-identifier choice.

The registry is a per-key tree of scope nodes.  Every operation below is a
direct translation of the corresponding TypeScript method:

  * `ContextRegistration` models the scope-node class: an optional stored
    value plus a `Map` from scope identifiers to child nodes.  The `Map` is
    modelled as an association list whose keys are unique in every reachable
    state; `alistSet` is `Map.set` (replace in place or append) and
    `alistEraseAll` is `Map.delete` (for unique keys, removing every pair
    with the key is exactly deletion of the key).
  * JavaScript nullable values (`T | undefined`, `null`) are modelled as
    `Option V`: `none` is a nullish value, and `coalesce` is the
    nullish-coalescing operator used by `getContext`.
  * `ScopeId` models `ContextScopeIdentifier = string | Function`; the
    identity of a function object is modelled by a numeric token.
    `ScopeId.isFalsy` captures JavaScript truthiness of a scope identifier:
    of all strings only the empty string is falsy, functions never are.
  * `Context` models the ContextKey class; `crypto.randomUUID()` is modelled
    as an injective fresh-id supply (`UuidGen`), reflecting the generator's
    documented contract that independently constructed keys get distinct ids.
-/

namespace Potami

variable {V : Type} {α : Type} {β : Type}

/-- Scope identifiers: `type ContextScopeIdentifier = string | Function`.
A function value is opaque; only its object identity matters, modelled by
a numeric token. -/
inductive ScopeId where
  | str : String → ScopeId
  | func : Nat → ScopeId
deriving DecidableEq

/-- JavaScript truthiness test used by `#registerRecursively`
(`if (!nextScopeId)`): among possible scope identifiers, exactly the empty
string is falsy (functions are always truthy). -/
def ScopeId.isFalsy : ScopeId → Bool
  | .str s => decide (s = ("" : String))
  | .func _ => false

/-- Association-list lookup: `Map.get` / record indexing (first match; keys
are unique in every reachable state). -/
def alistLookup [DecidableEq α] : List (α × β) → α → Option β
  | [], _ => none
  | (k, v) :: rest, key => if k = key then some v else alistLookup rest key

/-- Association-list update: `Map.set` / record assignment.  If the key is
present its value is replaced in place, otherwise the pair is appended. -/
def alistSet [DecidableEq α] : List (α × β) → α → β → List (α × β)
  | [], key, val => [(key, val)]
  | (k, v) :: rest, key, val =>
    if k = key then (key, val) :: rest else (k, v) :: alistSet rest key val

/-- Association-list removal: `Map.delete` / `delete record[key]`.  Every
pair with the key is removed; for unique keys this is exactly deletion. -/
def alistEraseAll [DecidableEq α] : List (α × β) → α → List (α × β)
  | [], _ => []
  | (k, v) :: rest, key =>
    if k = key then alistEraseAll rest key else (k, v) :: alistEraseAll rest key

/-- The ContextRegistration (scope node) class: `#value: T | undefined` and
`#scopes: Map<ContextScopeIdentifier, ContextRegistration<T>>`. -/
inductive ContextRegistration (V : Type) where
  | mk : Option V → List (ScopeId × ContextRegistration V) → ContextRegistration V

namespace ContextRegistration

/-- The `value` getter. -/
def value : ContextRegistration V → Option V
  | .mk v _ => v

/-- The `#scopes` map. -/
def scopes : ContextRegistration V → List (ScopeId × ContextRegistration V)
  | .mk _ s => s

/-- `new ContextRegistration()`: absent value, no child scopes. -/
def empty : ContextRegistration V := .mk none []

/-- `getScope(id)`: `this.#scopes.get(id)`. -/
def getScope (r : ContextRegistration V) (id : ScopeId) : Option (ContextRegistration V) :=
  alistLookup r.scopes id

/-- `hasScope(id)`: `this.#scopes.has(id)`.  A stored child is never
nullish, so `has` agrees with `get` being defined. -/
def hasScope (r : ContextRegistration V) (id : ScopeId) : Bool :=
  (r.getScope id).isSome

/-- The `value` setter. -/
def setValue (r : ContextRegistration V) (v : Option V) : ContextRegistration V :=
  .mk v r.scopes

/-- Net effect on the node of storing `child` under `id` in `#scopes`:
`addScope` attaches a freshly created child via `Map.set`, and recursive
calls mutate an existing child's subtree in place, which observably is the
same map update. -/
def setScope (r : ContextRegistration V) (id : ScopeId) (child : ContextRegistration V) :
    ContextRegistration V :=
  .mk r.value (alistSet r.scopes id child)

/-- `removeScope(id)`: `this.#scopes.delete(id)`. -/
def removeScope (r : ContextRegistration V) (id : ScopeId) : ContextRegistration V :=
  .mk r.value (alistEraseAll r.scopes id)

/-- Walks an exact child path; `some` exactly when every segment exists.
(Specification helper, not a source method.) -/
def nodeAt : ContextRegistration V → List ScopeId → Option (ContextRegistration V)
  | r, [] => some r
  | r, scopeId :: rest =>
    match r.getScope scopeId with
    | some child => nodeAt child rest
    | none => none

/-- Well-formedness invariant of every reachable scope node: no child is
keyed by a falsy identifier (`register` never creates one, because a falsy
head terminates the walk), recursively. -/
inductive WF : ContextRegistration V → Prop where
  | mk (value : Option V) (scopes : List (ScopeId × ContextRegistration V))
      (hkeys : ∀ x ∈ scopes, x.1.isFalsy = false)
      (hchild : ∀ x ∈ scopes, WF x.2) :
      WF (.mk value scopes)

end ContextRegistration

/-- JavaScript optional chaining `scope?.value` on a possibly-undefined
node. -/
def optValue : Option (ContextRegistration V) → Option V
  | some r => r.value
  | none => none

/-- JavaScript optional chaining for child lookup: `scope?.hasScope(id)`
guarded `scope.getScope(id)`; `none` both when the node is undefined and
when the child is missing. -/
def optGetScope : Option (ContextRegistration V) → ScopeId → Option (ContextRegistration V)
  | some s, id => s.getScope id
  | none, _ => none

/-- The nullish-coalescing operator `a ?? b` on our model of nullable
values. -/
def coalesce (a b : Option V) : Option V :=
  match a with
  | some v => some v
  | none => b

/-- The ContextKey class `Context<T>`: a unique string id paired with a
default value (which may itself be nullish). -/
structure Context (V : Type) where
  id : String
  defaultValue : Option V

/-- The fresh-id supply modelling `crypto.randomUUID()`: successive draws
yield pairwise distinct strings. -/
structure UuidGen where
  counter : Nat

/-- One draw from the id supply.  The id for counter value `n` is the
string of `n` repetitions of a fixed character, which is injective in `n`. -/
def UuidGen.next (g : UuidGen) : String × UuidGen :=
  (String.mk (List.replicate g.counter ('a' : Char)), ⟨g.counter + 1⟩)

/-- The Context constructor: `this.#id = crypto.randomUUID()` with the given
default value, threading the id supply. -/
def Context.construct (defaultValue : Option V) (g : UuidGen) : Context V × UuidGen :=
  let (id, g') := g.next
  (⟨id, defaultValue⟩, g')

/-- The ContextRegistry class: `#contexts: Record<Context['id'],
ContextRegistration>`. -/
structure ContextRegistry (V : Type) where
  contexts : List (String × ContextRegistration V)

namespace ContextRegistry

/-- `new ContextRegistry()`. -/
def empty : ContextRegistry V := ⟨[]⟩

/-- `#getRootRegistration(context)`: `this.#contexts[context.id]`. -/
def getRootRegistration (reg : ContextRegistry V) (ctx : Context V) :
    Option (ContextRegistration V) :=
  alistLookup reg.contexts ctx.id

/-- The root node `register` works on: the existing root for the key, or the
freshly created empty one (`if (!this.#getRootRegistration(context))
this.#contexts[context.id] = new ContextRegistration()`). -/
def rootOrEmpty (reg : ContextRegistry V) (ctx : Context V) : ContextRegistration V :=
  match reg.getRootRegistration ctx with
  | some r => r
  | none => ContextRegistration.empty

end ContextRegistry

/-- `#registerRecursively(value, currentScope, ...scopeIds)`:
`nextScopeId = scopeIds[0]` is falsy when the list is exhausted or the head
is the empty string, in which case the value is stored on the current node
and the remaining segments are ignored; otherwise the walk descends into the
existing child (`hasScope` / `getScope`) or into a freshly attached empty
child (`addScope`). -/
def registerRecursively (value : Option V) :
    ContextRegistration V → List ScopeId → ContextRegistration V
  | cur, [] => cur.setValue value
  | cur, scopeId :: rest =>
    if scopeId.isFalsy then cur.setValue value
    else
      match cur.getScope scopeId with
      | some child => cur.setScope scopeId (registerRecursively value child rest)
      | none => cur.setScope scopeId (registerRecursively value ContextRegistration.empty rest)

/-- `#removeRecursively(currentScope, ...scopeIds)`: with one remaining
segment the child keyed by it is deleted; with more, the walk descends into
an existing child or aborts silently.  (The source only ever calls this with
a non-empty list; the `[]` case is unreachable.) -/
def removeRecursively : ContextRegistration V → List ScopeId → ContextRegistration V
  | cur, [] => cur
  | cur, scopeId :: rest =>
    if rest = [] then cur.removeScope scopeId
    else
      match cur.getScope scopeId with
      | some child => cur.setScope scopeId (removeRecursively child rest)
      | none => cur

/-- The `for (const scopeId of scopeIds)` loop of `getContext`: carries the
current (possibly undefined) node and `lastDefinedScopeValue`, updates the
latter with the current node's value at the top of every iteration, then
descends while a matching child exists and breaks otherwise. -/
def getContextLoop :
    Option (ContextRegistration V) → Option V → List ScopeId →
      Option (ContextRegistration V) × Option V
  | scope, lastDefined, [] => (scope, lastDefined)
  | scope, lastDefined, scopeId :: rest =>
    let lastDefined' := coalesce (optValue scope) lastDefined
    match optGetScope scope scopeId with
    | some child => getContextLoop (some child) lastDefined' rest
    | none => (scope, lastDefined')

namespace ContextRegistry

/-- `register(context, value, ...scopeIds)`: ensure a root node exists for
the key, then store the value along the scope path.  Net effect on the
`#contexts` record: the entry for `context.id` becomes the recursively
updated root. -/
def register (reg : ContextRegistry V) (ctx : Context V) (value : Option V)
    (scopeIds : List ScopeId) : ContextRegistry V :=
  ⟨alistSet reg.contexts ctx.id (registerRecursively value (reg.rootOrEmpty ctx) scopeIds)⟩

/-- `getContext(context, ...scopeIds)`: run the resolution loop from the
(possibly absent) root, then return
`scope?.value ?? lastDefinedScopeValue ?? context.defaultValue`. -/
def getContext (reg : ContextRegistry V) (ctx : Context V) (scopeIds : List ScopeId) :
    Option V :=
  let root := reg.getRootRegistration ctx
  let result := getContextLoop root (optValue root) scopeIds
  coalesce (coalesce (optValue result.1) result.2) ctx.defaultValue

/-- `removeScope(context, ...scopeIds)`: an empty path deletes the whole
root entry for the key; otherwise, if a root exists, the subtree at the path
is removed recursively. -/
def removeScope (reg : ContextRegistry V) (ctx : Context V) (scopeIds : List ScopeId) :
    ContextRegistry V :=
  if scopeIds = [] then ⟨alistEraseAll reg.contexts ctx.id⟩
  else
    match reg.getRootRegistration ctx with
    | some root => ⟨alistSet reg.contexts ctx.id (removeRecursively root scopeIds)⟩
    | none => reg

/-- The exact node (if any) reached by following the path from the key's
root.  (Specification helper.) -/
def nodeAt (reg : ContextRegistry V) (ctx : Context V) (p : List ScopeId) :
    Option (ContextRegistration V) :=
  match reg.getRootRegistration ctx with
  | some root => root.nodeAt p
  | none => none

/-- The value stored at the exact node reached by the path, if both exist.
(Specification helper.) -/
def valueAt (reg : ContextRegistry V) (ctx : Context V) (p : List ScopeId) : Option V :=
  optValue (reg.nodeAt ctx p)

/-- Registry well-formedness: every per-key root tree is well formed. -/
def WF (reg : ContextRegistry V) : Prop :=
  ∀ x ∈ reg.contexts, x.2.WF

end ContextRegistry

/-- `pathExtends long pre = true` iff `pre` is a prefix of `long`, i.e. the
path `long` addresses a node at or below the node addressed by `pre`. -/
def pathExtends : List ScopeId → List ScopeId → Bool
  | _, [] => true
  | [], _ :: _ => false
  | a :: long, b :: pre => if a = b then pathExtends long pre else false

/-- Modelled from the spec: ancestor-fallback resolution stated the way the
specification words it, as the refinement target for `getContext` — the
value at the node where the walk ends if present, otherwise the nearest
ancestor's defined value encountered along the walk, otherwise nothing. -/
def resolveSpec : ContextRegistration V → List ScopeId → Option V
  | node, [] => node.value
  | node, scopeId :: rest =>
    match node.getScope scopeId with
    | some child => coalesce (resolveSpec child rest) node.value
    | none => node.value

/-- Modelled from the spec: the full resolution result — `key.defaultValue`
immediately when no root exists for the key, otherwise the walk's result
with a final fallback to the default. -/
def getContextSpec (reg : ContextRegistry V) (ctx : Context V) (scopeIds : List ScopeId) :
    Option V :=
  match reg.getRootRegistration ctx with
  | some root => coalesce (resolveSpec root scopeIds) ctx.defaultValue
  | none => ctx.defaultValue

/-- A single registry operation on a fixed key (the operations the registry
exposes to writers). -/
inductive RegOp (V : Type) where
  | store : Option V → List ScopeId → RegOp V
  | remove : List ScopeId → RegOp V

/-- Apply one operation to the registry on behalf of key `ctx`. -/
def applyOp (reg : ContextRegistry V) (ctx : Context V) : RegOp V → ContextRegistry V
  | .store v p => reg.register ctx v p
  | .remove p => reg.removeScope ctx p

/-- Apply a sequence of operations on behalf of key `ctx`. -/
def applyOps (reg : ContextRegistry V) (ctx : Context V) : List (RegOp V) → ContextRegistry V
  | [] => reg
  | op :: rest => applyOps (applyOp reg ctx op) ctx rest

/-- Model of a registered handler group (controller instance) as the
pipeline coordinator sees it: `instanceId` is the object identity of the
controller instance (each `server.controller(c)` registration may be a
distinct instance), `ctorFun` is the identity of its `constructor` function
(its class).  Two distinct instances of the same class share `ctorFun`. -/
structure ControllerModel where
  instanceId : Nat
  ctorFun : Nat
deriving DecidableEq

/-- The scope identifier `HttpServer.#handleHttpRequest` binds into the
handler-group-scoped context getter and setter for a matched controller:
`contextRegistry.getContext(context, controller.constructor)`. -/
def controllerScopeId (c : ControllerModel) : ScopeId :=
  ScopeId.func c.ctorFun

/- Concrete fixtures used by witnesses and counterexamples. -/

/-- A concrete context key with default value 0. -/
def kA : Context Nat := ⟨"ctx-a", some 0⟩

/-- A second concrete context key, with a distinct id and default value 7. -/
def kB : Context Nat := ⟨"ctx-b", some 7⟩

/-- A concrete truthy scope identifier. -/
def sX : ScopeId := ScopeId.str ("x")

/-- Another concrete truthy scope identifier. -/
def sY : ScopeId := ScopeId.str ("y")

/-- The falsy (empty-string) scope identifier. -/
def sEmpty : ScopeId := ScopeId.str ("")

/- ### Basic lemmas about the building blocks -/

@[simp] lemma coalesce_some (a : V) (b : Option V) : coalesce (some a) b = some a := rfl

@[simp] lemma coalesce_none (b : Option V) : coalesce none b = b := rfl

lemma coalesce_assoc (a b c : Option V) :
    coalesce (coalesce a b) c = coalesce a (coalesce b c) := by
  cases a <;> rfl

lemma coalesce_absorb (a b : Option V) : coalesce a (coalesce a b) = coalesce a b := by
  cases a <;> rfl

lemma coalesce_self (a : Option V) : coalesce a a = a := by
  cases a <;> rfl

@[simp] lemma coalesce_none_right (a : Option V) : coalesce a none = a := by
  cases a <;> rfl

lemma isSome_false_iff {o : Option α} : o.isSome = false ↔ o = none := by
  cases o <;> simp

@[simp] lemma optValue_some (r : ContextRegistration V) : optValue (some r) = r.value := rfl

@[simp] lemma optValue_none : optValue (none : Option (ContextRegistration V)) = none := rfl

@[simp] lemma optGetScope_some (r : ContextRegistration V) (id : ScopeId) :
    optGetScope (some r) id = r.getScope id := rfl

@[simp] lemma optGetScope_none (id : ScopeId) :
    optGetScope (none : Option (ContextRegistration V)) id = none := rfl

@[simp] lemma value_mk (v : Option V) (s : List (ScopeId × ContextRegistration V)) :
    (ContextRegistration.mk v s).value = v := rfl

@[simp] lemma scopes_mk (v : Option V) (s : List (ScopeId × ContextRegistration V)) :
    (ContextRegistration.mk v s).scopes = s := rfl

lemma registration_eta (n : ContextRegistration V) :
    ContextRegistration.mk n.value n.scopes = n := by
  cases n; rfl

@[simp] lemma value_setValue (n : ContextRegistration V) (v : Option V) :
    (n.setValue v).value = v := rfl

@[simp] lemma scopes_setValue (n : ContextRegistration V) (v : Option V) :
    (n.setValue v).scopes = n.scopes := rfl

@[simp] lemma value_setScope (n : ContextRegistration V) (id : ScopeId)
    (c : ContextRegistration V) : (n.setScope id c).value = n.value := rfl

@[simp] lemma scopes_setScope (n : ContextRegistration V) (id : ScopeId)
    (c : ContextRegistration V) : (n.setScope id c).scopes = alistSet n.scopes id c := rfl

@[simp] lemma value_removeScope (n : ContextRegistration V) (id : ScopeId) :
    (n.removeScope id).value = n.value := rfl

@[simp] lemma scopes_removeScope (n : ContextRegistration V) (id : ScopeId) :
    (n.removeScope id).scopes = alistEraseAll n.scopes id := rfl

@[simp] lemma value_empty : (ContextRegistration.empty : ContextRegistration V).value = none :=
  rfl

@[simp] lemma scopes_empty : (ContextRegistration.empty : ContextRegistration V).scopes = [] :=
  rfl

/- ### Association-list lemmas (the `Map` / record model) -/

lemma alistLookup_set_self [DecidableEq α] (l : List (α × β)) (key : α) (v : β) :
    alistLookup (alistSet l key v) key = some v := by
  induction l with
  | nil => simp [alistSet, alistLookup]
  | cons p rest ih =>
    obtain ⟨pk, pv⟩ := p
    by_cases h : pk = key <;> simp [alistSet, alistLookup, h, ih]

lemma alistLookup_set_ne [DecidableEq α] (l : List (α × β)) (key key' : α) (v : β)
    (h : key' ≠ key) : alistLookup (alistSet l key v) key' = alistLookup l key' := by
  induction l with
  | nil => simp [alistSet, alistLookup, Ne.symm h]
  | cons p rest ih =>
    obtain ⟨pk, pv⟩ := p
    by_cases hk : pk = key
    · subst hk
      simp [alistSet, alistLookup, Ne.symm h]
    · simp [alistSet, alistLookup, hk, ih]

lemma alistLookup_eraseAll_self [DecidableEq α] (l : List (α × β)) (key : α) :
    alistLookup (alistEraseAll l key) key = none := by
  induction l with
  | nil => simp [alistEraseAll, alistLookup]
  | cons p rest ih =>
    obtain ⟨pk, pv⟩ := p
    by_cases h : pk = key <;> simp [alistEraseAll, alistLookup, h, ih]

lemma alistLookup_eraseAll_ne [DecidableEq α] (l : List (α × β)) (key key' : α)
    (h : key' ≠ key) : alistLookup (alistEraseAll l key) key' = alistLookup l key' := by
  induction l with
  | nil => simp [alistEraseAll, alistLookup]
  | cons p rest ih =>
    obtain ⟨pk, pv⟩ := p
    by_cases hk : pk = key
    · subst hk
      simp [alistEraseAll, alistLookup, Ne.symm h, ih]
    · simp [alistEraseAll, alistLookup, hk, ih]

lemma alistSet_lookup_eq [DecidableEq α] (l : List (α × β)) (key : α) (v : β)
    (h : alistLookup l key = some v) : alistSet l key v = l := by
  induction l with
  | nil => simp [alistLookup] at h
  | cons p rest ih =>
    obtain ⟨pk, pv⟩ := p
    by_cases hk : pk = key
    · subst hk
      simp [alistLookup] at h
      simp [alistSet, h]
    · simp [alistLookup, hk] at h
      simp [alistSet, hk, ih h]

lemma alistEraseAll_lookup_none [DecidableEq α] (l : List (α × β)) (key : α)
    (h : alistLookup l key = none) : alistEraseAll l key = l := by
  induction l with
  | nil => simp [alistEraseAll]
  | cons p rest ih =>
    obtain ⟨pk, pv⟩ := p
    by_cases hk : pk = key
    · subst hk; simp [alistLookup] at h
    · simp [alistLookup, hk] at h
      simp [alistEraseAll, hk, ih h]

lemma alistLookup_mem [DecidableEq α] {l : List (α × β)} {key : α} {v : β}
    (h : alistLookup l key = some v) : (key, v) ∈ l := by
  induction l with
  | nil => simp [alistLookup] at h
  | cons p rest ih =>
    obtain ⟨pk, pv⟩ := p
    by_cases hk : pk = key
    · subst hk
      simp [alistLookup] at h
      simp [h]
    · simp [alistLookup, hk] at h
      exact List.mem_cons_of_mem _ (ih h)

lemma mem_alistSet [DecidableEq α] {l : List (α × β)} {key : α} {v : β} {x : α × β}
    (h : x ∈ alistSet l key v) : x ∈ l ∨ x = (key, v) := by
  induction l with
  | nil =>
    simp [alistSet] at h
    exact Or.inr h
  | cons p rest ih =>
    obtain ⟨pk, pv⟩ := p
    by_cases hk : pk = key
    · subst hk
      simp [alistSet] at h
      rcases h with h | h
      · exact Or.inr h
      · exact Or.inl (List.mem_cons_of_mem _ h)
    · simp [alistSet, hk] at h
      rcases h with h | h
      · exact Or.inl (by simp [h])
      · rcases ih h with h' | h'
        · exact Or.inl (List.mem_cons_of_mem _ h')
        · exact Or.inr h'

/- ### Well-formedness lemmas -/

lemma wf_keys {n : ContextRegistration V} (h : n.WF) :
    ∀ x ∈ n.scopes, x.1.isFalsy = false := by
  cases h with
  | mk v s hkeys hchild => exact hkeys

lemma wf_children {n : ContextRegistration V} (h : n.WF) :
    ∀ x ∈ n.scopes, x.2.WF := by
  cases h with
  | mk v s hkeys hchild => exact hchild

lemma wf_empty : (ContextRegistration.empty : ContextRegistration V).WF :=
  ContextRegistration.WF.mk none [] (fun _ hx => nomatch hx) (fun _ hx => nomatch hx)

lemma wf_getScope {n : ContextRegistration V} {id : ScopeId} {c : ContextRegistration V}
    (h : n.WF) (hc : n.getScope id = some c) : c.WF :=
  wf_children h _ (alistLookup_mem hc)

lemma wf_getScope_falsy {n : ContextRegistration V} {id : ScopeId} (h : n.WF)
    (hid : id.isFalsy = true) : n.getScope id = none := by
  cases hg : n.getScope id with
  | none => rfl
  | some c =>
    have := wf_keys h _ (alistLookup_mem hg)
    simp only [this] at hid
    exact absurd hid (by simp)

lemma wf_setValue {n : ContextRegistration V} (h : n.WF) (v : Option V) :
    (n.setValue v).WF := by
  cases n with
  | mk w s =>
    cases h with
    | mk _ _ hkeys hchild => exact ContextRegistration.WF.mk v s hkeys hchild

lemma wf_setScope {n : ContextRegistration V} {id : ScopeId} {c : ContextRegistration V}
    (h : n.WF) (hid : id.isFalsy = false) (hc : c.WF) : (n.setScope id c).WF := by
  cases n with
  | mk w s =>
    cases h with
    | mk _ _ hkeys hchild =>
      refine ContextRegistration.WF.mk w (alistSet s id c) (fun x hx => ?_) (fun x hx => ?_)
      · rcases mem_alistSet hx with h' | h'
        · exact hkeys x h'
        · subst h'; exact hid
      · rcases mem_alistSet hx with h' | h'
        · exact hchild x h'
        · subst h'; exact hc

lemma wf_registerRecursively {n : ContextRegistration V} (h : n.WF) (v : Option V)
    (p : List ScopeId) : (registerRecursively v n p).WF := by
  induction p generalizing n with
  | nil => exact wf_setValue h v
  | cons a rest ih =>
    by_cases ha : a.isFalsy
    · simpa [registerRecursively, ha] using wf_setValue h v
    · simp only [registerRecursively, ha, if_false]
      cases hg : n.getScope a with
      | some child =>
        exact wf_setScope h (by simpa using ha) (ih (wf_getScope h hg))
      | none =>
        exact wf_setScope h (by simpa using ha) (ih wf_empty)

lemma wf_rootOrEmpty {reg : ContextRegistry V} (h : reg.WF) (ctx : Context V) :
    (reg.rootOrEmpty ctx).WF := by
  unfold ContextRegistry.rootOrEmpty
  cases hg : reg.getRootRegistration ctx with
  | some r => exact h _ (alistLookup_mem hg)
  | none => exact wf_empty

lemma wf_register {reg : ContextRegistry V} (h : reg.WF) (ctx : Context V) (v : Option V)
    (p : List ScopeId) : (reg.register ctx v p).WF := by
  intro x hx
  rcases mem_alistSet hx with h' | h'
  · exact h x h'
  · subst h'
    exact wf_registerRecursively (wf_rootOrEmpty h ctx) v p

lemma wf_empty_registry : (ContextRegistry.empty : ContextRegistry V).WF :=
  fun _ hx => nomatch hx

/- ### nodeAt lemmas -/

@[simp] lemma nodeAt_nil (n : ContextRegistration V) :
    n.nodeAt [] = some n := rfl

lemma nodeAt_append (n : ContextRegistration V) (x y : List ScopeId) :
    n.nodeAt (x ++ y) =
      match n.nodeAt x with
      | some m => m.nodeAt y
      | none => none := by
  induction x generalizing n with
  | nil => simp [ContextRegistration.nodeAt]
  | cons a rest ih =>
    simp only [List.cons_append, ContextRegistration.nodeAt]
    cases hg : n.getScope a with
    | some child => simpa using ih child
    | none => rfl

lemma nodeAt_empty_optValue (q : List ScopeId) :
    optValue ((ContextRegistration.empty : ContextRegistration V).nodeAt q) = none := by
  cases q with
  | nil => simp [ContextRegistration.nodeAt, ContextRegistration.empty]
  | cons a rest =>
    simp [ContextRegistration.nodeAt, ContextRegistration.getScope, alistLookup]

/- ### resolveSpec lemmas -/

lemma resolveSpec_empty (q : List ScopeId) :
    resolveSpec (ContextRegistration.empty : ContextRegistration V) q = none := by
  cases q with
  | nil => rfl
  | cons a rest =>
    simp [resolveSpec, ContextRegistration.getScope, alistLookup]

lemma resolveSpec_coalesce_value (n : ContextRegistration V) (q : List ScopeId) :
    coalesce (resolveSpec n q) n.value = resolveSpec n q := by
  cases q with
  | nil => simp [resolveSpec, coalesce_self]
  | cons a rest =>
    simp only [resolveSpec]
    cases hg : n.getScope a with
    | some child => rw [coalesce_assoc, coalesce_self]
    | none => exact coalesce_self _

/- ### The `getContext` loop is the spec's recursive resolution -/

lemma getContextLoop_none (ldv : Option V) (ids : List ScopeId) :
    getContextLoop (none : Option (ContextRegistration V)) ldv ids = (none, ldv) := by
  cases ids with
  | nil => rfl
  | cons a rest => simp [getContextLoop]

lemma getContextLoop_some_eq (ids : List ScopeId) (n : ContextRegistration V)
    (ldv : Option V) :
    coalesce (optValue (getContextLoop (some n) ldv ids).1)
        (getContextLoop (some n) ldv ids).2 =
      coalesce (resolveSpec n ids) ldv := by
  induction ids generalizing n ldv with
  | nil => simp [getContextLoop, resolveSpec]
  | cons a rest ih =>
    simp only [getContextLoop, optGetScope_some, optValue_some]
    cases hg : n.getScope a with
    | some child =>
      simp only [resolveSpec, hg, ih, coalesce_assoc]
    | none =>
      simp only [resolveSpec, hg, optValue_some, coalesce_absorb]

lemma getContext_eq_spec (reg : ContextRegistry V) (ctx : Context V)
    (p : List ScopeId) : reg.getContext ctx p = getContextSpec reg ctx p := by
  unfold ContextRegistry.getContext getContextSpec
  cases hg : reg.getRootRegistration ctx with
  | some root =>
    simp only [optValue_some]
    rw [getContextLoop_some_eq, resolveSpec_coalesce_value]
  | none =>
    simp [getContextLoop_none]

/- ### Registry-level glue -/

lemma register_getRoot_self (reg : ContextRegistry V) (ctx : Context V) (v : Option V)
    (p : List ScopeId) :
    (reg.register ctx v p).getRootRegistration ctx =
      some (registerRecursively v (reg.rootOrEmpty ctx) p) := by
  unfold ContextRegistry.register ContextRegistry.getRootRegistration
  exact alistLookup_set_self _ _ _

lemma getContext_congr_root {reg reg' : ContextRegistry V} (ctx : Context V)
    (h : reg.getRootRegistration ctx = reg'.getRootRegistration ctx)
    (p : List ScopeId) : reg.getContext ctx p = reg'.getContext ctx p := by
  unfold ContextRegistry.getContext
  rw [h]

lemma getContext_noRoot {reg : ContextRegistry V} {ctx : Context V}
    (h : reg.getRootRegistration ctx = none) (p : List ScopeId) :
    reg.getContext ctx p = ctx.defaultValue := by
  rw [getContext_eq_spec]
  unfold getContextSpec
  rw [h]

lemma valueAt_rootOrEmpty (reg : ContextRegistry V) (ctx : Context V) (q : List ScopeId) :
    reg.valueAt ctx q = optValue ((reg.rootOrEmpty ctx).nodeAt q) := by
  unfold ContextRegistry.valueAt ContextRegistry.nodeAt ContextRegistry.rootOrEmpty
  cases hg : reg.getRootRegistration ctx with
  | some root => rfl
  | none => rw [nodeAt_empty_optValue]; rfl

/- ### Child-lookup simp lemmas -/

@[simp] lemma getScope_setValue (n : ContextRegistration V) (v : Option V) (id : ScopeId) :
    (n.setValue v).getScope id = n.getScope id := rfl

@[simp] lemma getScope_empty (id : ScopeId) :
    (ContextRegistration.empty : ContextRegistration V).getScope id = none := rfl

lemma getScope_setScope_self (n : ContextRegistration V) (id : ScopeId)
    (c : ContextRegistration V) : (n.setScope id c).getScope id = some c :=
  alistLookup_set_self _ _ _

lemma getScope_setScope_ne (n : ContextRegistration V) (id id' : ScopeId)
    (c : ContextRegistration V) (h : id' ≠ id) :
    (n.setScope id c).getScope id' = n.getScope id' :=
  alistLookup_set_ne _ _ _ _ h

lemma getScope_removeScope_self (n : ContextRegistration V) (id : ScopeId) :
    (n.removeScope id).getScope id = none :=
  alistLookup_eraseAll_self _ _

lemma getScope_removeScope_ne (n : ContextRegistration V) (id id' : ScopeId)
    (h : id' ≠ id) : (n.removeScope id).getScope id' = n.getScope id' :=
  alistLookup_eraseAll_ne _ _ _ h

/- ### pathExtends basics -/

@[simp] lemma pathExtends_nil_right (p : List ScopeId) : pathExtends p [] = true := by
  cases p <;> rfl

@[simp] lemma pathExtends_nil_left (b : ScopeId) (q : List ScopeId) :
    pathExtends [] (b :: q) = false := rfl

lemma pathExtends_cons (a b : ScopeId) (long pre : List ScopeId) :
    pathExtends (a :: long) (b :: pre) = if a = b then pathExtends long pre else false := rfl

/- ### register: what the written tree looks like -/

lemma resolveSpec_register_self (p : List ScopeId) (n : ContextRegistration V) (v : V)
    (h : n.WF) : resolveSpec (registerRecursively (some v) n p) p = some v := by
  induction p generalizing n with
  | nil => simp [registerRecursively, resolveSpec]
  | cons a rest ih =>
    by_cases ha : a.isFalsy = true
    · have hnone : n.getScope a = none := wf_getScope_falsy h ha
      simp [registerRecursively, ha, resolveSpec, hnone]
    · have ha' : a.isFalsy = false := by simpa using ha
      simp only [registerRecursively, ha', Bool.false_eq_true, if_false]
      cases hg : n.getScope a with
      | some child =>
        simp [resolveSpec, getScope_setScope_self, ih _ (wf_getScope h hg)]
      | none =>
        simp [resolveSpec, getScope_setScope_self, ih _ wf_empty]

lemma resolveSpec_register_deeper (p : List ScopeId) (n : ContextRegistration V) (v : V)
    (extra : ScopeId) (h : n.WF)
    (hnone : optValue ((registerRecursively (some v) n p).nodeAt (p ++ [extra])) = none) :
    resolveSpec (registerRecursively (some v) n p) (p ++ [extra]) = some v := by
  induction p generalizing n with
  | nil =>
    simp only [registerRecursively, List.nil_append] at hnone ⊢
    cases hg : (n.setValue (some v)).getScope extra with
    | some c =>
      simp only [ContextRegistration.nodeAt, hg, optValue_some] at hnone
      simp [resolveSpec, hg, hnone]
    | none => simp [resolveSpec, hg]
  | cons a rest ih =>
    by_cases ha : a.isFalsy = true
    · have hnone' : n.getScope a = none := wf_getScope_falsy h ha
      simp [registerRecursively, ha, resolveSpec, hnone']
    · have ha' : a.isFalsy = false := by simpa using ha
      simp only [registerRecursively, ha', Bool.false_eq_true, if_false, List.cons_append]
        at hnone ⊢
      cases hg : n.getScope a with
      | some child =>
        simp only [hg, ContextRegistration.nodeAt, getScope_setScope_self] at hnone
        simp [resolveSpec, getScope_setScope_self, ih _ (wf_getScope h hg) hnone]
      | none =>
        simp only [hg, ContextRegistration.nodeAt, getScope_setScope_self] at hnone
        simp [resolveSpec, getScope_setScope_self, ih _ wf_empty hnone]

lemma nodeAt_register_self (p : List ScopeId) (n : ContextRegistration V) (v : Option V)
    (hp : ∀ x ∈ p, x.isFalsy = false) :
    optValue ((registerRecursively v n p).nodeAt p) = v := by
  induction p generalizing n with
  | nil => simp [registerRecursively]
  | cons a rest ih =>
    have ha : a.isFalsy = false := hp a (by simp)
    simp only [registerRecursively, ha, Bool.false_eq_true, if_false]
    have hp' : ∀ x ∈ rest, x.isFalsy = false := fun x hx => hp x (by simp [hx])
    cases hg : n.getScope a with
    | some child =>
      simp [ContextRegistration.nodeAt, getScope_setScope_self, ih _ hp']
    | none =>
      simp [ContextRegistration.nodeAt, getScope_setScope_self, ih _ hp']

lemma nodeAt_register_other (p : List ScopeId) (n : ContextRegistration V) (v : Option V)
    (s : List ScopeId) (hp : ∀ x ∈ p, x.isFalsy = false) (hs : s ≠ p) :
    optValue ((registerRecursively v n p).nodeAt s) = optValue (n.nodeAt s) := by
  induction p generalizing n s with
  | nil =>
    cases s with
    | nil => exact absurd rfl hs
    | cons b s' => simp [registerRecursively, ContextRegistration.nodeAt]
  | cons a rest ih =>
    have ha : a.isFalsy = false := hp a (by simp)
    have hp' : ∀ x ∈ rest, x.isFalsy = false := fun x hx => hp x (by simp [hx])
    simp only [registerRecursively, ha, Bool.false_eq_true, if_false]
    cases s with
    | nil =>
      cases hg : n.getScope a <;>
        simp [ContextRegistration.nodeAt]
    | cons b s' =>
      by_cases hb : b = a
      · subst hb
        have hs' : s' ≠ rest := fun hh => hs (by rw [hh])
        cases hg : n.getScope b with
        | some child =>
          simp only [ContextRegistration.nodeAt, getScope_setScope_self, hg]
          exact ih _ _ hp' hs'
        | none =>
          simp only [ContextRegistration.nodeAt, getScope_setScope_self, hg, optValue_none]
          rw [ih _ _ hp' hs', nodeAt_empty_optValue]
      · cases hg : n.getScope a <;>
          simp [ContextRegistration.nodeAt, getScope_setScope_ne _ _ _ _ hb, hg]

lemma nodeAt_register_isSome (q p : List ScopeId) (n : ContextRegistration V) (v : Option V)
    (hp : ∀ x ∈ p, x.isFalsy = false) (hq : pathExtends p q = true) :
    ((registerRecursively v n p).nodeAt q).isSome = true := by
  induction q generalizing p n with
  | nil => simp
  | cons b q' ih =>
    cases p with
    | nil => simp at hq
    | cons a p' =>
      rw [pathExtends_cons] at hq
      by_cases hab : a = b
      · subst hab
        have hq' : pathExtends p' q' = true := by simpa using hq
        have ha : a.isFalsy = false := hp a (by simp)
        have hp' : ∀ x ∈ p', x.isFalsy = false := fun x hx => hp x (by simp [hx])
        simp only [registerRecursively, ha, Bool.false_eq_true, if_false]
        cases hg : n.getScope a with
        | some child =>
          simp only [ContextRegistration.nodeAt, getScope_setScope_self]
          exact ih _ _ hp' hq'
        | none =>
          simp only [ContextRegistration.nodeAt, getScope_setScope_self]
          exact ih _ _ hp' hq'
      · rw [if_neg hab] at hq
        exact absurd hq (by simp)

lemma resolveSpec_register_frame (p s : List ScopeId) (n : ContextRegistration V)
    (v : Option V) (hp : ∀ x ∈ p, x.isFalsy = false) (hs : pathExtends s p = false) :
    resolveSpec (registerRecursively v n p) s = resolveSpec n s := by
  induction p generalizing n s with
  | nil => simp at hs
  | cons a p' ih =>
    have ha : a.isFalsy = false := hp a (by simp)
    have hp' : ∀ x ∈ p', x.isFalsy = false := fun x hx => hp x (by simp [hx])
    simp only [registerRecursively, ha, Bool.false_eq_true, if_false]
    cases s with
    | nil =>
      cases hg : n.getScope a <;> simp [resolveSpec]
    | cons b s' =>
      by_cases hb : b = a
      · subst hb
        rw [pathExtends_cons, if_pos rfl] at hs
        cases hg : n.getScope b with
        | some child =>
          simp [resolveSpec, getScope_setScope_self, hg, ih _ _ hp' hs]
        | none =>
          simp [resolveSpec, getScope_setScope_self, hg, ih _ _ hp' hs,
            resolveSpec_empty]
      · have hbne : ∀ c : ContextRegistration V,
            (n.setScope a c).getScope b = n.getScope b :=
          fun c => getScope_setScope_ne _ _ _ _ hb
        cases hga : n.getScope a with
        | some child => simp only [resolveSpec, hbne, value_setScope]
        | none => simp only [resolveSpec, hbne, value_setScope]

lemma registerRecursively_falsy_truncates (p rest : List ScopeId)
    (n : ContextRegistration V) (v : Option V) :
    registerRecursively v n (p ++ ScopeId.str ("") :: rest) =
      registerRecursively v n p := by
  induction p generalizing n with
  | nil => simp [registerRecursively, ScopeId.isFalsy]
  | cons a p' ih =>
    by_cases ha : a.isFalsy = true
    · simp [registerRecursively, ha]
    · have ha' : a.isFalsy = false := by simpa using ha
      simp only [List.cons_append, registerRecursively, ha', Bool.false_eq_true, if_false]
      cases hg : n.getScope a <;> simp [hg, ih]

lemma resolveSpec_register_nullish (q : List ScopeId) (a : ScopeId)
    (n : ContextRegistration V) (h : n.WF) :
    resolveSpec (registerRecursively none n (q ++ [a])) (q ++ [a]) =
      resolveSpec (registerRecursively none n (q ++ [a])) q := by
  induction q generalizing n with
  | nil =>
    by_cases ha : a.isFalsy = true
    · have hnone : n.getScope a = none := wf_getScope_falsy h ha
      simp [registerRecursively, ha, resolveSpec, hnone]
    · have ha' : a.isFalsy = false := by simpa using ha
      simp only [List.nil_append, registerRecursively, ha', Bool.false_eq_true, if_false]
      cases hg : n.getScope a with
      | some child =>
        simp [resolveSpec, getScope_setScope_self]
      | none =>
        simp [resolveSpec, getScope_setScope_self]
  | cons b q' ih =>
    by_cases hb : b.isFalsy = true
    · have hnone : n.getScope b = none := wf_getScope_falsy h hb
      simp [registerRecursively, hb, resolveSpec, hnone]
    · have hb' : b.isFalsy = false := by simpa using hb
      simp only [List.cons_append, registerRecursively, hb', Bool.false_eq_true, if_false]
      cases hg : n.getScope b with
      | some child =>
        simp [resolveSpec, getScope_setScope_self, ih _ (wf_getScope h hg)]
      | none =>
        simp [resolveSpec, getScope_setScope_self, ih _ wf_empty]

/- ### removeScope: what the pruned tree looks like -/

lemma removeRecursively_singleton (n : ContextRegistration V) (b : ScopeId) :
    removeRecursively n [b] = n.removeScope b := rfl

lemma removeRecursively_cons_of_ne_nil (n : ContextRegistration V) (b : ScopeId)
    (rest : List ScopeId) (h : rest ≠ []) :
    removeRecursively n (b :: rest) =
      match n.getScope b with
      | some child => n.setScope b (removeRecursively child rest)
      | none => n := by
  cases rest with
  | nil => exact absurd rfl h
  | cons x xs => rfl

lemma remove_getScope_last (q : List ScopeId) (a : ScopeId) (n : ContextRegistration V) :
    optGetScope ((removeRecursively n (q ++ [a])).nodeAt q) a = none := by
  induction q generalizing n with
  | nil =>
    simp only [List.nil_append, removeRecursively_singleton, nodeAt_nil, optGetScope_some]
    exact getScope_removeScope_self _ _
  | cons b q' ih =>
    show optGetScope ((removeRecursively n (b :: (q' ++ [a]))).nodeAt (b :: q')) a = none
    rw [removeRecursively_cons_of_ne_nil _ _ _ (by simp)]
    cases hg : n.getScope b with
    | some c =>
      simp only [hg, ContextRegistration.nodeAt, getScope_setScope_self]
      exact ih _
    | none =>
      simp only [hg, ContextRegistration.nodeAt, optGetScope_none]

lemma resolveSpec_truncated (q : List ScopeId) (a : ScopeId) (ext : List ScopeId)
    (n : ContextRegistration V) (h : optGetScope (n.nodeAt q) a = none) :
    resolveSpec n (q ++ a :: ext) = resolveSpec n q := by
  induction q generalizing n with
  | nil =>
    simp only [nodeAt_nil, optGetScope_some] at h
    simp [resolveSpec, h]
  | cons b q' ih =>
    show resolveSpec n (b :: (q' ++ a :: ext)) = resolveSpec n (b :: q')
    cases hg : n.getScope b with
    | some c =>
      simp only [ContextRegistration.nodeAt, hg] at h
      simp only [resolveSpec, hg]
      rw [ih _ h]
    | none => simp only [resolveSpec, hg]

lemma resolveSpec_remove_frame (p s : List ScopeId) (n : ContextRegistration V)
    (hp : p ≠ []) (hs : pathExtends s p = false) :
    resolveSpec (removeRecursively n p) s = resolveSpec n s := by
  induction p generalizing n s with
  | nil => exact absurd rfl hp
  | cons a p' ih =>
    by_cases hp' : p' = []
    · subst hp'
      rw [removeRecursively_singleton]
      cases s with
      | nil => simp [resolveSpec]
      | cons b s' =>
        by_cases hb : b = a
        · subst hb
          rw [pathExtends_cons, if_pos rfl, pathExtends_nil_right] at hs
          exact absurd hs (by simp)
        · simp only [resolveSpec, getScope_removeScope_ne _ _ _ hb, value_removeScope]
    · rw [removeRecursively_cons_of_ne_nil _ _ _ hp']
      cases hg : n.getScope a with
      | none => rfl
      | some c =>
        cases s with
        | nil => simp [resolveSpec]
        | cons b s' =>
          by_cases hb : b = a
          · subst hb
            rw [pathExtends_cons, if_pos rfl] at hs
            simp only [resolveSpec, getScope_setScope_self, value_setScope, hg]
            rw [ih _ _ hp' hs]
          · have hbne : ∀ c' : ContextRegistration V,
                (n.setScope a c').getScope b = n.getScope b :=
              fun c' => getScope_setScope_ne _ _ _ _ hb
            simp only [resolveSpec, hbne, value_setScope]

lemma removeRecursively_noop (p : List ScopeId) (n : ContextRegistration V)
    (h : (n.nodeAt p).isSome = false) : removeRecursively n p = n := by
  induction p generalizing n with
  | nil => simp at h
  | cons a rest ih =>
    by_cases hrest : rest = []
    · subst hrest
      rw [removeRecursively_singleton]
      cases hg : n.getScope a with
      | some c => simp [ContextRegistration.nodeAt, hg] at h
      | none =>
        have heq : alistEraseAll n.scopes a = n.scopes :=
          alistEraseAll_lookup_none _ _ hg
        unfold ContextRegistration.removeScope
        rw [heq, registration_eta]
    · rw [removeRecursively_cons_of_ne_nil _ _ _ hrest]
      cases hg : n.getScope a with
      | none => rfl
      | some c =>
        simp only [ContextRegistration.nodeAt, hg] at h
        have hc : removeRecursively c rest = c := ih _ h
        show n.setScope a (removeRecursively c rest) = n
        rw [hc]
        unfold ContextRegistration.setScope
        rw [alistSet_lookup_eq _ _ _ hg, registration_eta]

/- ### Frame lemmas at the registry level (other keys untouched) -/

lemma getRoot_register_ne {ctx ctx' : Context V} (reg : ContextRegistry V)
    (v : Option V) (p : List ScopeId) (h : ctx'.id ≠ ctx.id) :
    (reg.register ctx v p).getRootRegistration ctx' = reg.getRootRegistration ctx' := by
  unfold ContextRegistry.register ContextRegistry.getRootRegistration
  exact alistLookup_set_ne _ _ _ _ h

lemma getRoot_removeScope_ne {ctx ctx' : Context V} (reg : ContextRegistry V)
    (p : List ScopeId) (h : ctx'.id ≠ ctx.id) :
    (reg.removeScope ctx p).getRootRegistration ctx' = reg.getRootRegistration ctx' := by
  unfold ContextRegistry.removeScope
  by_cases hp : p = []
  · rw [if_pos hp]
    exact alistLookup_eraseAll_ne _ _ _ h
  · rw [if_neg hp]
    cases hg : reg.getRootRegistration ctx with
    | some root => exact alistLookup_set_ne _ _ _ _ h
    | none => rfl

lemma getRoot_applyOps_ne {ctx ctx' : Context V} (ops : List (RegOp V))
    (reg : ContextRegistry V) (h : ctx'.id ≠ ctx.id) :
    (applyOps reg ctx ops).getRootRegistration ctx' = reg.getRootRegistration ctx' := by
  induction ops generalizing reg with
  | nil => rfl
  | cons op rest ih =>
    rw [show applyOps reg ctx (op :: rest) = applyOps (applyOp reg ctx op) ctx rest from rfl]
    rw [ih _]
    cases op with
    | store v p => exact getRoot_register_ne _ _ _ h
    | remove p => exact getRoot_removeScope_ne _ _ h

/- ### Assembly glue at the registry level -/

lemma getContextSpec_eq_some {reg : ContextRegistry V} {ctx : Context V}
    {root : ContextRegistration V} (hg : reg.getRootRegistration ctx = some root)
    (p : List ScopeId) :
    getContextSpec reg ctx p = coalesce (resolveSpec root p) ctx.defaultValue := by
  unfold getContextSpec
  rw [hg]

lemma rootOrEmpty_eq_of_some {reg : ContextRegistry V} {ctx : Context V}
    {root : ContextRegistration V} (hg : reg.getRootRegistration ctx = some root) :
    reg.rootOrEmpty ctx = root := by
  unfold ContextRegistry.rootOrEmpty
  rw [hg]

lemma rootOrEmpty_eq_of_none {reg : ContextRegistry V} {ctx : Context V}
    (hg : reg.getRootRegistration ctx = none) :
    reg.rootOrEmpty ctx = ContextRegistration.empty := by
  unfold ContextRegistry.rootOrEmpty
  rw [hg]

lemma register_getContext_self {reg : ContextRegistry V} (h : reg.WF) (ctx : Context V)
    (v : V) (p : List ScopeId) :
    (reg.register ctx (some v) p).getContext ctx p = some v := by
  rw [getContext_eq_spec, getContextSpec_eq_some (register_getRoot_self reg ctx (some v) p) p,
    resolveSpec_register_self _ _ _ (wf_rootOrEmpty h ctx)]
  rfl

lemma register_getContext_frame (reg : ContextRegistry V) (ctx : Context V) (v : Option V)
    (p s : List ScopeId) (hp : ∀ x ∈ p, x.isFalsy = false) (hs : pathExtends s p = false) :
    (reg.register ctx v p).getContext ctx s = reg.getContext ctx s := by
  rw [getContext_eq_spec, getContext_eq_spec,
    getContextSpec_eq_some (register_getRoot_self reg ctx v p) s]
  cases hg : reg.getRootRegistration ctx with
  | some root =>
    rw [rootOrEmpty_eq_of_some hg, resolveSpec_register_frame _ _ _ _ hp hs,
      getContextSpec_eq_some hg s]
  | none =>
    rw [rootOrEmpty_eq_of_none hg, resolveSpec_register_frame _ _ _ _ hp hs,
      resolveSpec_empty]
    unfold getContextSpec
    rw [hg]
    rfl

lemma removeScope_getRoot_self {reg : ContextRegistry V} {ctx : Context V}
    {root : ContextRegistration V} (hg : reg.getRootRegistration ctx = some root)
    {p : List ScopeId} (hp : p ≠ []) :
    (reg.removeScope ctx p).getRootRegistration ctx = some (removeRecursively root p) := by
  unfold ContextRegistry.removeScope
  rw [if_neg hp, hg]
  exact alistLookup_set_self _ _ _

lemma removeScope_nil_getRoot (reg : ContextRegistry V) (ctx : Context V) :
    (reg.removeScope ctx []).getRootRegistration ctx = none := by
  unfold ContextRegistry.removeScope
  rw [if_pos rfl]
  exact alistLookup_eraseAll_self _ _

lemma removeScope_noroot {reg : ContextRegistry V} {ctx : Context V}
    (hg : reg.getRootRegistration ctx = none) {p : List ScopeId} (hp : p ≠ []) :
    reg.removeScope ctx p = reg := by
  unfold ContextRegistry.removeScope
  rw [if_neg hp, hg]

lemma removeScope_noop {reg : ContextRegistry V} {ctx : Context V} {p : List ScopeId}
    (h : (reg.nodeAt ctx p).isSome = false) : reg.removeScope ctx p = reg := by
  by_cases hp : p = []
  · subst hp
    have hg : reg.getRootRegistration ctx = none := by
      unfold ContextRegistry.nodeAt at h
      cases hgg : reg.getRootRegistration ctx with
      | some root => rw [hgg] at h; simp at h
      | none => rfl
    unfold ContextRegistry.removeScope
    rw [if_pos rfl, alistEraseAll_lookup_none _ _ hg]
  · cases hgg : reg.getRootRegistration ctx with
    | none => exact removeScope_noroot hgg hp
    | some root =>
      have hroot : (root.nodeAt p).isSome = false := by
        unfold ContextRegistry.nodeAt at h
        rw [hgg] at h
        exact h
      unfold ContextRegistry.removeScope
      rw [if_neg hp, hgg]
      show (⟨alistSet reg.contexts ctx.id (removeRecursively root p)⟩ : ContextRegistry V)
        = reg
      rw [removeRecursively_noop _ _ hroot, alistSet_lookup_eq _ _ _ hgg]

lemma nodeAt_singleton (n : ContextRegistration V) (b : ScopeId) :
    n.nodeAt [b] = n.getScope b := by
  cases hg : n.getScope b <;> simp [ContextRegistration.nodeAt, hg]

lemma nodeAt_remove_last_none (q : List ScopeId) (a : ScopeId) (n : ContextRegistration V) :
    (removeRecursively n (q ++ [a])).nodeAt (q ++ [a]) = none := by
  have h := remove_getScope_last q a n
  rw [nodeAt_append]
  cases hm : (removeRecursively n (q ++ [a])).nodeAt q with
  | none => rfl
  | some m =>
    rw [hm, optGetScope_some] at h
    show m.nodeAt [a] = none
    rw [nodeAt_singleton, h]

/- ### Pairwise-distinct construction of keys -/

lemma construct_ids_distinct (g : UuidGen) (d1 d2 : Option V) :
    ((Context.construct d1 g).1).id ≠ ((Context.construct d2 (Context.construct d1 g).2).1).id := by
  intro hcontra
  simp only [Context.construct, UuidGen.next] at hcontra
  have h2 : List.replicate g.counter ('a' : Char) =
      List.replicate (g.counter + 1) ('a' : Char) := congrArg String.data hcontra
  have h3 := congrArg List.length h2
  simp at h3

/- ### Falsy identifiers are exactly the empty string -/

lemma isFalsy_eq_str {id : ScopeId} (h : id.isFalsy = true) : id = ScopeId.str ("") := by
  cases id with
  | str s =>
    simp [ScopeId.isFalsy] at h
    rw [h]
  | func f => simp [ScopeId.isFalsy] at h

/- ### Sibling registrations do not interfere -/

lemma registerRec_single (m : ContextRegistration V) (v : V) (b : ScopeId)
    (hb : b.isFalsy = false) :
    registerRecursively (some v) m [b] =
      match m.getScope b with
      | some cb => m.setScope b (cb.setValue (some v))
      | none => m.setScope b (ContextRegistration.empty.setValue (some v)) := by
  simp only [registerRecursively, hb, Bool.false_eq_true, if_false]

lemma resolveSpec_two_siblings (n : ContextRegistration V) (hwf : n.WF) (v1 v2 : V)
    (a b : ScopeId) (hab : a ≠ b) :
    resolveSpec (registerRecursively (some v2) (registerRecursively (some v1) n [a]) [b])
      [a] = some v1 := by
  by_cases ha : a.isFalsy = true
  · by_cases hb : b.isFalsy = true
    · exact absurd ((isFalsy_eq_str ha).trans (isFalsy_eq_str hb).symm) hab
    · have hb' : b.isFalsy = false := by simpa using hb
      simp only [registerRecursively, ha, if_true, hb', Bool.false_eq_true, if_false]
      have hga : ∀ c : ContextRegistration V,
          ((n.setValue (some v1)).setScope b c).getScope a = none := by
        intro c
        rw [getScope_setScope_ne _ _ _ _ hab, getScope_setValue]
        exact wf_getScope_falsy hwf ha
      cases hg : (n.setValue (some v1)).getScope b with
      | some child => simp [resolveSpec, hga]
      | none => simp [resolveSpec, hga]
  · have ha' : a.isFalsy = false := by simpa using ha
    by_cases hb : b.isFalsy = true
    · simp only [registerRecursively, ha', Bool.false_eq_true, if_false, hb, if_true]
      cases hg : n.getScope a with
      | some child =>
        simp [resolveSpec, getScope_setScope_self, registerRecursively]
      | none =>
        simp [resolveSpec, getScope_setScope_self, registerRecursively]
    · have hb' : b.isFalsy = false := by simpa using hb
      have hne : ∀ m c : ContextRegistration V,
          (m.setScope b c).getScope a = m.getScope a :=
        fun m c => getScope_setScope_ne _ _ _ _ hab
      have hca : ∃ ca : ContextRegistration V,
          (registerRecursively (some v1) n [a]).getScope a =
            some (ca.setValue (some v1)) := by
        simp only [registerRecursively, ha', Bool.false_eq_true, if_false]
        cases hg : n.getScope a with
        | some child => exact ⟨child, getScope_setScope_self _ _ _⟩
        | none => exact ⟨ContextRegistration.empty, getScope_setScope_self _ _ _⟩
      obtain ⟨ca, hca⟩ := hca
      rw [registerRec_single _ v2 b hb']
      generalize hgen : registerRecursively (some v1) n [a] = n1 at hca ⊢
      cases hgb : n1.getScope b with
      | some cb => simp [resolveSpec, hne, hca]
      | none => simp [resolveSpec, hne, hca]

lemma register_two_siblings {reg : ContextRegistry V} (h : reg.WF) (ctx : Context V)
    (v1 v2 : V) (a b : ScopeId) (hab : a ≠ b) :
    ((reg.register ctx (some v1) [a]).register ctx (some v2) [b]).getContext ctx [a]
        = some v1 ∧
    ((reg.register ctx (some v1) [a]).register ctx (some v2) [b]).getContext ctx [b]
        = some v2 := by
  constructor
  · rw [getContext_eq_spec,
      getContextSpec_eq_some
        (register_getRoot_self (reg.register ctx (some v1) [a]) ctx (some v2) [b]) _,
      rootOrEmpty_eq_of_some (register_getRoot_self reg ctx (some v1) [a]),
      resolveSpec_two_siblings _ (wf_rootOrEmpty h ctx) v1 v2 a b hab]
    rfl
  · exact register_getContext_self (wf_register h ctx (some v1) [a]) ctx v2 [b]

lemma register_valueAt (reg : ContextRegistry V) (ctx : Context V) (v : Option V)
    (p q : List ScopeId) :
    (reg.register ctx v p).valueAt ctx q =
      optValue ((registerRecursively v (reg.rootOrEmpty ctx) p).nodeAt q) := by
  unfold ContextRegistry.valueAt ContextRegistry.nodeAt
  rw [register_getRoot_self]

lemma register_nullish_parent {reg : ContextRegistry V} (h : reg.WF) (ctx : Context V)
    (q : List ScopeId) (a : ScopeId) :
    (reg.register ctx none (q ++ [a])).getContext ctx (q ++ [a]) =
      (reg.register ctx none (q ++ [a])).getContext ctx q := by
  rw [getContext_eq_spec, getContext_eq_spec,
    getContextSpec_eq_some (register_getRoot_self reg ctx none (q ++ [a])) (q ++ [a]),
    getContextSpec_eq_some (register_getRoot_self reg ctx none (q ++ [a])) q,
    resolveSpec_register_nullish q a _ (wf_rootOrEmpty h ctx)]

/- ## The claims -/

/-- Claim C1: for every key and scope path, `getContext` implements
ancestor-fallback resolution exactly as the specification words it
(`getContextSpec`): starting at the root for the key's id (returning the
default immediately when no root exists), the walk descends only while a
matching child exists (a missing segment truncates the walk without error),
and the result is the value at the node where the walk ended if present,
otherwise the nearest ancestor's defined value encountered along the walk
(never a value from a sibling subtree), otherwise the key's default; in
particular on a freshly constructed registry every lookup returns the
default for any path. -/
theorem C1_getContext_ancestor_fallback (reg : ContextRegistry V) (k : Context V)
    (p : List ScopeId) :
    reg.getContext k p = getContextSpec reg k p ∧
    (ContextRegistry.empty : ContextRegistry V).getContext k p = k.defaultValue :=
  ⟨getContext_eq_spec reg k p,
    getContext_noRoot
      (show (ContextRegistry.empty : ContextRegistry V).getRootRegistration k = none
        from rfl) p⟩

/-- Claim C2: on a well-formed registry, after `register(k, v, p)` the lookup
`getContext(k, p)` returns `v`; and for any deeper path `p ++ [extra]` whose
deeper node carries no value, `getContext` also returns `v` (ancestor
fallback). -/
theorem C2_register_get_ancestor_fallback (reg : ContextRegistry V) (k : Context V)
    (v : V) (p : List ScopeId) (h : reg.WF) :
    (reg.register k (some v) p).getContext k p = some v ∧
    ∀ extra : ScopeId,
      (reg.register k (some v) p).valueAt k (p ++ [extra]) = none →
        (reg.register k (some v) p).getContext k (p ++ [extra]) = some v := by
  constructor
  · exact register_getContext_self h k v p
  · intro extra hnone
    rw [register_valueAt] at hnone
    rw [getContext_eq_spec,
      getContextSpec_eq_some (register_getRoot_self reg k (some v) p) _,
      resolveSpec_register_deeper p _ v extra (wf_rootOrEmpty h k) hnone]
    rfl

/-- Witness for C2: registering 5 at scope path x of a fresh registry, the
lookup at x returns 5, and the lookup at the deeper (absent) path x/y also
returns 5. -/
theorem C2_register_get_ancestor_fallback_w :
    ((ContextRegistry.empty.register kA (some 5) [sX]).getContext kA [sX] = some 5) ∧
    ((ContextRegistry.empty.register kA (some 5) [sX]).getContext kA ([sX] ++ [sY])
      = some 5) :=
  ⟨(C2_register_get_ancestor_fallback ContextRegistry.empty kA 5 [sX]
      wf_empty_registry).1,
   (C2_register_get_ancestor_fallback ContextRegistry.empty kA 5 [sX]
      wf_empty_registry).2 sY (by decide)⟩

/-- Counterexample to claim C3 as stated: with the scope path `p = [""]`
(the falsy empty-string identifier), `register` does not write at the end of
`p`; it truncates and overwrites the root node's value, so the root path
`[]` — which does not extend `p` — observes a changed `getContext` value
(2 instead of the previously registered 1). -/
theorem C3_cex :
    pathExtends [] [sEmpty] = false ∧
    (((ContextRegistry.empty.register kA (some 1) []).register kA (some 2)
        [sEmpty]).getContext kA [] = some 2) ∧
    ((ContextRegistry.empty.register kA (some 1) []).getContext kA [] = some 1) := by
  decide

/-- Claim C3 (amended): for every key, value, and scope path `p` containing
no empty-string segment, `register` walks `p` from the root creating every
missing intermediate node with an absent value, sets the value exactly at
the node at the end of `p`, a second register with the same path overwrites
only the value at that exact node (every other node's stored value is
untouched), and a register never changes the value at any ancestor node or
sibling subtree: `getContext` is unchanged at every path not extending
`p`. -/
theorem C3_register_frame (reg : ContextRegistry V) (k : Context V) (v v2 : V)
    (p : List ScopeId) (hp : ∀ x ∈ p, x.isFalsy = false) :
    (reg.register k (some v) p).valueAt k p = some v ∧
    (∀ q, pathExtends p q = true → q ≠ p →
      (reg.register k (some v) p).valueAt k q = reg.valueAt k q ∧
      ((reg.register k (some v) p).nodeAt k q).isSome = true) ∧
    ((reg.register k (some v) p).register k (some v2) p).valueAt k p = some v2 ∧
    (∀ s, s ≠ p →
      ((reg.register k (some v) p).register k (some v2) p).valueAt k s =
        (reg.register k (some v) p).valueAt k s) ∧
    (∀ s, pathExtends s p = false →
      (reg.register k (some v) p).getContext k s = reg.getContext k s) := by
  refine ⟨?_, ?_, ?_, ?_, ?_⟩
  · rw [register_valueAt]
    exact nodeAt_register_self p _ (some v) hp
  · intro q hq hne
    constructor
    · rw [register_valueAt, valueAt_rootOrEmpty]
      exact nodeAt_register_other p _ (some v) q hp hne
    · unfold ContextRegistry.nodeAt
      rw [register_getRoot_self]
      exact nodeAt_register_isSome q p _ (some v) hp hq
  · rw [register_valueAt,
      rootOrEmpty_eq_of_some (register_getRoot_self reg k (some v) p)]
    exact nodeAt_register_self p _ (some v2) hp
  · intro s hs
    rw [register_valueAt (reg.register k (some v) p) k (some v2) p s,
      rootOrEmpty_eq_of_some (register_getRoot_self reg k (some v) p),
      register_valueAt reg k (some v) p s]
    exact nodeAt_register_other p _ (some v2) s hp hs
  · intro s hs
    exact register_getContext_frame reg k (some v) p s hp hs

/-- Witness for the amended C3: registering at scope x of a fresh registry
leaves the lookup at the non-extending path y unchanged. -/
theorem C3_register_frame_w :
    (ContextRegistry.empty.register kA (some 3) [sX]).getContext kA [sY] =
      ContextRegistry.empty.getContext kA [sY] :=
  (C3_register_frame ContextRegistry.empty kA 3 4 [sX] (by decide)).2.2.2.2 [sY]
    (by decide)

/-- Claim C4: `removeScope(k, [])` resets every subsequent lookup for `k` to
the key's default; for a non-empty path `q ++ [a]`, `removeScope` prunes
exactly the subtree rooted there — the node and all of its descendants are
gone, lookups at or below the removed path resolve exactly as the surviving
parent path does (the nearest surviving ancestor value) — while `getContext`
at every path that does not extend the removed one (every ancestor and every
sibling subtree) returns the same value as before the removal. -/
theorem C4_removeScope (reg : ContextRegistry V) (k : Context V) :
    (∀ p, (reg.removeScope k []).getContext k p = k.defaultValue) ∧
    ∀ q a,
      (∀ ext : List ScopeId,
        ((reg.removeScope k (q ++ [a])).nodeAt k ((q ++ [a]) ++ ext)).isSome = false) ∧
      (∀ ext : List ScopeId,
        (reg.removeScope k (q ++ [a])).getContext k ((q ++ [a]) ++ ext) =
          (reg.removeScope k (q ++ [a])).getContext k q) ∧
      (∀ s, pathExtends s (q ++ [a]) = false →
        (reg.removeScope k (q ++ [a])).getContext k s = reg.getContext k s) := by
  constructor
  · intro p
    exact getContext_noRoot (removeScope_nil_getRoot reg k) p
  · intro q a
    have hne : ¬(q ++ [a] = []) := by simp
    cases hg : reg.getRootRegistration k with
    | none =>
      have hrg : reg.removeScope k (q ++ [a]) = reg := removeScope_noroot hg hne
      refine ⟨?_, ?_, ?_⟩
      · intro ext
        rw [hrg]
        unfold ContextRegistry.nodeAt
        rw [hg]
        rfl
      · intro ext
        rw [hrg, getContext_noRoot hg, getContext_noRoot hg]
      · intro s hs
        rw [hrg]
    | some root =>
      have hroot := removeScope_getRoot_self hg hne
      refine ⟨?_, ?_, ?_⟩
      · intro ext
        unfold ContextRegistry.nodeAt
        rw [hroot]
        show ((removeRecursively root (q ++ [a])).nodeAt ((q ++ [a]) ++ ext)).isSome
          = false
        rw [nodeAt_append _ (q ++ [a]) ext, nodeAt_remove_last_none q a root]
        rfl
      · intro ext
        rw [getContext_eq_spec, getContext_eq_spec, getContextSpec_eq_some hroot,
          getContextSpec_eq_some hroot]
        have hsh : (q ++ [a]) ++ ext = q ++ a :: ext := by simp
        rw [hsh, resolveSpec_truncated q a ext _ (remove_getScope_last q a root)]
      · intro s hs
        rw [getContext_eq_spec, getContext_eq_spec, getContextSpec_eq_some hroot,
          getContextSpec_eq_some hg, resolveSpec_remove_frame _ _ _ hne hs]

/-- Witness for C4: removing the (nonexistent) subtree x/y leaves the root
lookup unchanged. -/
theorem C4_removeScope_w :
    ((ContextRegistry.empty.register kA (some 2) []).removeScope kA
        ([sX] ++ [sY])).getContext kA [] =
      (ContextRegistry.empty.register kA (some 2) []).getContext kA [] :=
  ((C4_removeScope (ContextRegistry.empty.register kA (some 2) []) kA).2 [sX] sY).2.2 []
    (by decide)

/-- Claim C5: registry operations never raise errors (all three operations
are total functions of the model): a key with no root resolves to its
default for every path, and `removeScope` along a path some segment of which
does not exist in the tree is a silent no-op — the registry is left
unchanged, hence `getContext` is unchanged for every key and every path. -/
theorem C5_no_errors (reg : ContextRegistry V) (k : Context V) (p : List ScopeId) :
    ((reg.getRootRegistration k).isSome = false → reg.getContext k p = k.defaultValue) ∧
    ((reg.nodeAt k p).isSome = false →
      reg.removeScope k p = reg ∧
      ∀ (k' : Context V) (p' : List ScopeId),
        (reg.removeScope k p).getContext k' p' = reg.getContext k' p') := by
  constructor
  · intro h
    exact getContext_noRoot (isSome_false_iff.mp h) p
  · intro h
    have heq := removeScope_noop h
    exact ⟨heq, fun k' p' => by rw [heq]⟩

/-- Witness for C5: removing the nonexistent scope x for one key leaves
every lookup — here the other key's root lookup — unchanged. -/
theorem C5_no_errors_w :
    (ContextRegistry.empty.removeScope kA [sX]).getContext kB [] =
      ContextRegistry.empty.getContext kB [] :=
  ((C5_no_errors ContextRegistry.empty kA [sX]).2 (by decide)).2 kB []

/-- Claim C6: on a well-formed registry, registering `v1` at scope `[a]` and
`v2` at the sibling scope `[b]` (distinct identifiers) in either order
yields a state in which scope `[a]` reads `v1` and scope `[b]` reads `v2`:
writes to one scope never alter a sibling scope, and the two registrations
commute observably. -/
theorem C6_sibling_writes_commute (reg : ContextRegistry V) (k : Context V)
    (v1 v2 : V) (a b : ScopeId) (h : reg.WF) (hab : a ≠ b) :
    (((reg.register k (some v1) [a]).register k (some v2) [b]).getContext k [a]
        = some v1 ∧
      ((reg.register k (some v1) [a]).register k (some v2) [b]).getContext k [b]
        = some v2) ∧
    (((reg.register k (some v2) [b]).register k (some v1) [a]).getContext k [a]
        = some v1 ∧
      ((reg.register k (some v2) [b]).register k (some v1) [a]).getContext k [b]
        = some v2) := by
  refine ⟨register_two_siblings h k v1 v2 a b hab, ?_⟩
  have h2 := register_two_siblings h k v2 v1 b a (Ne.symm hab)
  exact ⟨h2.2, h2.1⟩

/-- Witness for C6 at concrete sibling scopes x and y. -/
theorem C6_sibling_writes_commute_w :
    ((ContextRegistry.empty.register kA (some 1) [sX]).register kA (some 2)
        [sY]).getContext kA [sX] = some 1 :=
  ((C6_sibling_writes_commute ContextRegistry.empty kA 1 2 sX sY wf_empty_registry
    (by decide)).1).1

/-- Claim C7: two Context keys constructed in sequence from the id supply
never share an id, even when constructed with identical default values; and
keys with distinct ids never alias in a registry: any sequence of
register/removeScope operations performed on one key leaves `getContext` for
the other key unchanged at every path. -/
theorem C7_keys_never_alias :
    (∀ (g : UuidGen) (d1 d2 : Option V),
      ((Context.construct d1 g).1).id ≠
        ((Context.construct d2 (Context.construct d1 g).2).1).id) ∧
    ∀ (k1 k2 : Context V), k1.id ≠ k2.id →
      ∀ (ops : List (RegOp V)) (reg : ContextRegistry V) (p : List ScopeId),
        (applyOps reg k1 ops).getContext k2 p = reg.getContext k2 p := by
  constructor
  · exact fun g d1 d2 => construct_ids_distinct g d1 d2
  · intro k1 k2 h ops reg p
    exact getContext_congr_root k2 (getRoot_applyOps_ne ops reg (Ne.symm h)) p

/-- Witness for C7: a store on one key does not change the other key's
lookup. -/
theorem C7_keys_never_alias_w :
    (applyOps ContextRegistry.empty kA [RegOp.store (some 3) []]).getContext kB [] =
      ContextRegistry.empty.getContext kB [] :=
  (C7_keys_never_alias (V := Nat)).2 kA kB (by decide) [RegOp.store (some 3) []]
    ContextRegistry.empty []

/-- Counterexample to claim C8 as stated: two distinct registered controller
instances of the same controller class (same `constructor` function,
distinct object identity) are distinct handler groups yet receive the same
scope identifier. -/
theorem C8_cex :
    (ControllerModel.mk 0 5 ≠ ControllerModel.mk 1 5) ∧
    controllerScopeId (ControllerModel.mk 0 5) =
      controllerScopeId (ControllerModel.mk 1 5) := by
  decide

/-- Claim C8 (amended): the scope identifier the pipeline coordinator binds
into the handler-group-scoped getter and setter is the matched controller's
class (its `constructor` function) — a stable token that is distinct for any
two registered handler groups of distinct controller classes, but shared by
two registered controller instances of the same class. -/
theorem C8_scope_identity (c1 c2 : ControllerModel) (h : c1.ctorFun ≠ c2.ctorFun) :
    controllerScopeId c1 ≠ controllerScopeId c2 := by
  intro hcontra
  unfold controllerScopeId at hcontra
  exact h (ScopeId.func.inj hcontra)

/-- Witness for the amended C8 at two controllers of distinct classes. -/
theorem C8_scope_identity_w :
    controllerScopeId (ControllerModel.mk 0 5) ≠
      controllerScopeId (ControllerModel.mk 2 6) :=
  C8_scope_identity (ControllerModel.mk 0 5) (ControllerModel.mk 2 6) (by decide)

/-- Claim C9: a nullish value stored at a node is indistinguishable from an
absent value: on a well-formed registry, after registering a nullish value
at a path, `getContext` at that path does not return it — at the root path
it returns the key's default, and at a non-empty path it resolves exactly as
the parent path does (the nearest ancestor's defined value if one exists,
otherwise the default), because resolution skips nullish stored values via
nullish coalescing at every fallback step. -/
theorem C9_nullish_invisible (reg : ContextRegistry V) (k : Context V) (h : reg.WF) :
    ((reg.register k none []).getContext k [] = k.defaultValue) ∧
    ∀ (q : List ScopeId) (a : ScopeId),
      (reg.register k none (q ++ [a])).getContext k (q ++ [a]) =
        (reg.register k none (q ++ [a])).getContext k q := by
  constructor
  · rw [getContext_eq_spec,
      getContextSpec_eq_some (register_getRoot_self reg k none []) _]
    rfl
  · intro q a
    exact register_nullish_parent h k q a

/-- Witness for C9: registering a nullish value at scope x of a fresh
registry, the lookup at x resolves exactly as the root lookup does. -/
theorem C9_nullish_invisible_w :
    (ContextRegistry.empty.register kA none ([] ++ [sX])).getContext kA ([] ++ [sX]) =
      (ContextRegistry.empty.register kA none ([] ++ [sX])).getContext kA [] :=
  (C9_nullish_invisible ContextRegistry.empty kA wf_empty_registry).2 [] sX

/-- Claim C10: `register` treats the falsy empty-string identifier as the
end of the scope path rather than as a child key: registering along
`p ++ [""] ++ rest` is literally the same registry operation as registering
along `p` — no child keyed by the empty string and none of the nodes of
`rest` are created, and the write lands on (and overwrites) the node at `p`
itself — and on a well-formed registry `getContext` at `p` then returns the
written value. -/
theorem C10_falsy_truncates (reg : ContextRegistry V) (k : Context V) (v : V)
    (p rest : List ScopeId) :
    reg.register k (some v) (p ++ ScopeId.str ("") :: rest) =
      reg.register k (some v) p ∧
    (reg.WF →
      (reg.register k (some v) (p ++ ScopeId.str ("") :: rest)).getContext k p
        = some v) := by
  have heq : reg.register k (some v) (p ++ ScopeId.str ("") :: rest) =
      reg.register k (some v) p := by
    unfold ContextRegistry.register
    rw [registerRecursively_falsy_truncates]
  refine ⟨heq, fun h => ?_⟩
  rw [heq]
  exact register_getContext_self h k v p

/-- Witness for C10: registering 5 along x/""/y of a fresh registry writes
at x, where the lookup then returns 5. -/
theorem C10_falsy_truncates_w :
    (ContextRegistry.empty.register kA (some 5)
        ([sX] ++ ScopeId.str ("") :: [sY])).getContext kA [sX] = some 5 :=
  (C10_falsy_truncates ContextRegistry.empty kA 5 [sX] [sY]).2 wf_empty_registry

end Potami
